import Mathlib

/-!
Verification of the local-cache subsystem of the Local-4chan-Scraper
repository.  Python sources under `src/` are shallowly embedded as Lean
functions: timestamps and byte counts use exact rational arithmetic in
place of Python floats, dictionaries become association lists, and the
coarse per-method locks justify treating each store operation as one
atomic state transition.
-/

namespace Scraper

/-! ## Python string helpers

`pyStartsWith pat s` and `pyContains pat s` model the Python substring
test `pat in s` on character lists; `pyLower` models `str.lower()`. -/

def pyStartsWith : List Char → List Char → Bool
  | [], _ => true
  | _ :: _, [] => false
  | p :: ps, c :: cs => p = c && pyStartsWith ps cs

def pyContains (pat : List Char) : List Char → Bool
  | [] => pyStartsWith pat []
  | c :: cs => pyStartsWith pat (c :: cs) || pyContains pat cs

def pyInStr (pat s : String) : Bool :=
  pyContains pat.toList s.toList

def pyLower (s : String) : String :=
  String.mk (s.toList.map Char.toLower)

/-! ## Filter component

Two drafted variants exist in the repository:
`src/utils/filter_manager.py` (typed filters with an optional regex
path) and `src/utils/file_manager.py` (substring-only filters with HTML
stripping).  Both are embedded.  The regex engine `re.search` is not
reimplemented; it is a parameter `reSearch` of the embedding
(`none` models a `re.error`, which the source swallows), so every
theorem below holds for an arbitrary regex engine. -/

structure CatalogThread where
  sub : String
  com : String
  no : Int
  deriving DecidableEq, Repr

structure Filt where
  fid : Int
  keyword : String
  ftype : String
  case_sensitive : Bool
  regex : Bool
  enabled : Bool
  deriving DecidableEq, Repr

/-- One pass of the `for f in filters` loop body of
`FilterManager.apply_filters` in `src/utils/filter_manager.py`:
returns `true` exactly when some enabled filter hides the thread. -/
def shouldHideFM (reSearch : String → String → Bool → Option Bool)
    (t : CatalogThread) : List Filt → Bool
  | [] => false
  | f :: fs =>
    if !f.enabled then shouldHideFM reSearch t fs
    else if f.keyword = "" then shouldHideFM reSearch t fs
    else
      let text :=
        if f.ftype = "subject" then t.sub
        else if f.ftype = "comment" then t.com
        else t.sub ++ " " ++ t.com
      if f.regex then
        match reSearch f.keyword text f.case_sensitive with
        | some true => true
        | _ => shouldHideFM reSearch t fs
      else if f.case_sensitive then
        if pyInStr f.keyword text then true else shouldHideFM reSearch t fs
      else
        if pyInStr (pyLower f.keyword) (pyLower text) then true
        else shouldHideFM reSearch t fs

/-- `FilterManager.apply_filters` of `src/utils/filter_manager.py`:
an empty filter list returns the input unchanged, otherwise the threads
some enabled filter hides are dropped, in order. -/
def applyFiltersFM (reSearch : String → String → Bool → Option Bool)
    (threads : List CatalogThread) (filters : List Filt) : List CatalogThread :=
  if filters = [] then threads
  else threads.filter (fun t => !shouldHideFM reSearch t filters)

/-- The single replacement pass of `re.sub(r'<[^>]+>', '', comment)` in
`src/utils/file_manager.py`: drop every run `<` + one-or-more non-`>`
characters + `>`, scanning left to right. -/
def stripHtml : List Char → List Char
  | [] => []
  | c :: cs =>
    if c = '<' then
      let seg := cs.takeWhile (fun d => d ≠ '>')
      let rest := cs.dropWhile (fun d => d ≠ '>')
      match h : rest with
      | '>' :: rest2 =>
        if seg = [] then c :: stripHtml cs else stripHtml rest2
      | _ => c :: stripHtml cs
    else c :: stripHtml cs
  termination_by l => l.length
  decreasing_by
  all_goals
    first
      | (simp only [List.length_cons]; omega)
      | (have h1 : ('>' :: rest2).length ≤ cs.length := by
           rw [← h]; exact (List.dropWhile_suffix _).sublist.length_le
         simp only [List.length_cons] at h1 ⊢
         omega)

/-- The loop body of the second drafted variant,
`FilterManager.apply_filters` in `src/utils/file_manager.py`: lowercase
the keyword, test it against the lowercased subject and against the
lowercased, HTML-stripped comment. -/
def shouldHideFile (t : CatalogThread) : List Filt → Bool
  | [] => false
  | f :: fs =>
    if !f.enabled then shouldHideFile t fs
    else
      let kw := pyLower f.keyword
      if kw = "" then shouldHideFile t fs
      else if pyContains kw.toList (pyLower t.sub).toList then true
      else if pyContains kw.toList (stripHtml (pyLower t.com).toList) then true
      else shouldHideFile t fs

/-- `FilterManager.apply_filters` of `src/utils/file_manager.py`. -/
def applyFiltersFile (threads : List CatalogThread) (filters : List Filt) :
    List CatalogThread :=
  if filters = [] then threads
  else threads.filter (fun t => !shouldHideFile t filters)

/-! ## History component

Again two drafted variants: `HistoryManager.add_entry` in
`src/utils/history_manager.py` (most-recent-first, capped at
`max_entries`) and `add_to_history`/`save_history` in `src/app.py`
(append at the end, keep the last 100 entries). -/

structure HEntry where
  board : String
  thread_id : Int
  title : String
  timestamp : ℤ
  deriving DecidableEq, Repr

/-- The `(board, thread_id)` deduplication key shared by both history
variants. -/
def keyTest (board : String) (tid : Int) (h : HEntry) : Bool :=
  h.board == board && h.thread_id == tid

/-- `HistoryManager.add_entry` of `src/utils/history_manager.py`:
drop any entry with the same key, push the new entry at the front,
truncate to `max_entries`. -/
def hmAddEntry (maxEntries : ℕ) (history : List HEntry)
    (board : String) (tid : Int) (title : String) (now : ℤ) : List HEntry :=
  let deduped := history.filter (fun h => !keyTest board tid h)
  (HEntry.mk board tid title now :: deduped).take maxEntries

/-- `save_history` of `src/app.py`: keep only the last 100 entries
(Python `history[-100:]`). -/
def appSaveHistory (history : List HEntry) : List HEntry :=
  history.drop (history.length - 100)

/-- `add_to_history` of `src/app.py`: build the entry (empty title
falls back to `No Subject`), drop duplicates, append at the END, then
`save_history` keeps the last 100. -/
def appAddToHistory (history : List HEntry)
    (board : String) (tid : Int) (title : String) (now : ℤ) : List HEntry :=
  let entry := HEntry.mk board tid
    (if title = "" then "No Subject" else title) now
  let deduped := history.filter (fun h => !keyTest board tid h)
  appSaveHistory (deduped ++ [entry])

/-! ## JSON payloads

Thread payloads are opaque JSON blobs; `json.dumps`/`json.loads` is the
standard library's bijection on JSON-representable values, so the
metadata store is modelled as holding the JSON value itself. -/

inductive Json where
  | null
  | bool (b : Bool)
  | num (q : ℚ)
  | str (s : String)
  | arr (items : List Json)
  | obj (fields : List (String × Json))

/-- Python `d.get(key, default)` on a JSON object (first binding wins,
as dict keys are unique). -/
def Json.objGet (j : Json) (key : String) : Option Json :=
  match j with
  | Json.obj fields => fields.lookup key
  | _ => none

/-- `thread_data.get('posts', [])` as used by both `cache_thread` and
`get_thread`. -/
def Json.posts (j : Json) : List Json :=
  match j.objGet "posts" with
  | some (Json.arr items) => items
  | _ => []

/-! ## Remote client (`src/utils/api_client.py`)

Each embedded request function returns its result together with the
list of primitive actions it performs, in order: taking the shared
rate-limit gate, issuing an HTTP GET, or sleeping for a backoff pause.
The network is a function `w` from attempt number to response. -/

inductive Action where
  | rateWait
  | httpGet (url : String)
  | sleep (seconds : ℚ)
  deriving DecidableEq, Repr

inductive Resp where
  | ok (data : Json)
  | httpErr (code : ℕ)
  | exc

/-- `FourChanAPI._wait_rate_limit`: under the lock, sleep out the rest
of the interval if the last request was less than `rateLimit` seconds
ago, then stamp `last_request`.  Returns the time at which the caller
proceeds and the updated gate state. -/
def waitRateLimit (rateLimit : ℚ) (lastRequest : ℚ) (now : ℚ) : ℚ × ℚ :=
  let elapsed := now - lastRequest
  if elapsed < rateLimit then
    let t := now + (rateLimit - elapsed)
    (t, t)
  else (now, now)

/-- The `for attempt in range(max_retries)` loop of
`FourChanAPI._make_request`: a 2xx returns the JSON, a 404 returns
`None` at once, another HTTP error continues with no backoff, any other
exception sleeps 1 second unless it was the last attempt. -/
def makeRequestLoop (url : String) (w : ℕ → Resp) (maxRetries : ℕ) :
    List ℕ → Option Json × List Action
  | [] => (none, [])
  | a :: rest =>
    match w a with
    | Resp.ok j => (some j, [Action.httpGet url])
    | Resp.httpErr code =>
      if code = 404 then (none, [Action.httpGet url])
      else
        let p := makeRequestLoop url w maxRetries rest
        (p.1, Action.httpGet url :: p.2)
    | Resp.exc =>
      let p := makeRequestLoop url w maxRetries rest
      if a < maxRetries - 1 then
        (p.1, Action.httpGet url :: Action.sleep 1 :: p.2)
      else (p.1, Action.httpGet url :: p.2)

/-- `FourChanAPI._make_request`: wait on the shared gate, then run the
retry loop. -/
def makeRequest (url : String) (w : ℕ → Resp) (maxRetries : ℕ) :
    Option Json × List Action :=
  let p := makeRequestLoop url w maxRetries (List.range maxRetries)
  (p.1, Action.rateWait :: p.2)

/-- `FourChanAPI.download_file`: waits on the shared gate, then streams
the body (outcome abstracted as `ok`). -/
def apiDownloadFile (url : String) (ok : Bool) : Bool × List Action :=
  (ok, [Action.rateWait, Action.httpGet url])

/-! ## Blob cache (`src/utils/cache_manager.py`)

State: the on-disk files (path and byte size) and the in-memory
last-access map, with the configured size limit in MB.  Sizes are
compared in exact rational MB where the source uses floats. -/

structure FileEntry where
  path : String
  size : ℕ
  deriving DecidableEq, Repr

structure CMState where
  files : List FileEntry
  accessTimes : List (String × ℤ)
  maxSizeMB : ℕ
  deriving DecidableEq, Repr

/-- Total on-disk size in bytes (`CacheManager._get_cache_size` walks
the directory and sums `stat().st_size`). -/
def totalBytes (files : List FileEntry) : ℕ :=
  (files.map FileEntry.size).sum

/-- On-disk size in MB, `total / (1024 * 1024)`. -/
def sizeMB (files : List FileEntry) : ℚ :=
  (totalBytes files : ℚ) / (1024 * 1024)

/-- `self.access_times.get(str(file_path), 0)`: a file never accessed
in this process defaults to access time 0. -/
def lruKey (s : CMState) (f : FileEntry) : ℤ :=
  ((s.accessTimes.lookup f.path).getD 0)

/-- `files.sort(key=lambda x: x[0])`: Python's stable ascending sort by
recorded access time, as a stable insertion sort. -/
def sortLru (s : CMState) : List FileEntry :=
  List.insertionSort (fun u v => lruKey s u ≤ lruKey s v) s.files

/-- The deletion loop of `CacheManager._cleanup_lru`: walk the sorted
list, stop as soon as the running total `cur` bytes is at or under 80%
of `limitMB` (the float test `cur / 2^20 <= limitMB * 0.8` written as
the exact integer inequality `5 * cur <= 4 * limitMB * 2^20`),
otherwise delete the head and subtract its size.  Returns
(deleted, remaining). -/
def evict (limitMB : ℕ) : List FileEntry → ℕ → List FileEntry × List FileEntry
  | [], _ => ([], [])
  | f :: fs, cur =>
    if 5 * cur ≤ 4 * (limitMB * 1048576) then ([], f :: fs)
    else
      let p := evict limitMB fs (cur - f.size)
      (f :: p.1, p.2)

/-- `CacheManager._cleanup_lru`: enumerate the files, sort ascending by
recorded access time, delete oldest-first down to 80% of the limit and
drop the deleted paths from the access-time map. -/
def cleanupLru (s : CMState) : CMState :=
  let sorted := sortLru s
  let p := evict s.maxSizeMB sorted (totalBytes s.files)
  { s with files := p.2,
           accessTimes := s.accessTimes.filter
             (fun kv => !(p.1.map FileEntry.path).contains kv.1) }

/-- `CacheManager._check_cache_size`: run eviction only when the total
size strictly exceeds the limit (the float test
`total / 2^20 > limitMB` written exactly as
`total > limitMB * 2^20`). -/
def checkCacheSize (s : CMState) : CMState :=
  if s.maxSizeMB * 1048576 < totalBytes s.files then cleanupLru s else s

/-- A completed `open(dest_path, 'wb')` write: the destination file now
exists with the downloaded size (overwriting any previous version). -/
def addFile (s : CMState) (path : String) (size : ℕ) : CMState :=
  { s with files := s.files.filter (fun f => !(f.path == path)) ++
      [FileEntry.mk path size] }

/-- The failure path `if dest_path.exists(): dest_path.unlink()`. -/
def removeFile (s : CMState) (path : String) : CMState :=
  { s with files := s.files.filter (fun f => !(f.path == path)) }

/-- `CacheManager._update_access_time`: dict assignment of the current
time under the file's path. -/
def updateAccessTime (s : CMState) (path : String) (now : ℤ) : CMState :=
  { s with accessTimes :=
      (path, now) :: s.accessTimes.filter (fun kv => !(kv.1 == path)) }

/-- The cache state right after a successful download has been written
and its access time recorded, before the size check. -/
def downloadedState (s : CMState) (path : String) (size : ℕ) (now : ℤ) :
    CMState :=
  updateAccessTime (addFile s path size) path now

/-- `CacheManager._download_file`: a plain `requests.get` with NO
rate-limit gate; on success write the file, stamp its access time and
run the size check; on failure delete any partial file and return
`None`. -/
def cacheDownloadFile (s : CMState) (url path : String) (size : ℕ)
    (now : ℤ) (ok : Bool) : Option String × CMState × List Action :=
  if ok then
    (some path, checkCacheSize (downloadedState s path size now),
      [Action.httpGet url])
  else (none, removeFile s path, [Action.httpGet url])

/-- `CacheManager.cleanup_expired`: delete every file whose recorded
access time (default 0) is before `now - max_age_hours * 3600`; return
the number deleted and the new state. -/
def cleanupExpired (s : CMState) (maxAgeHours : ℤ) (now : ℤ) :
    ℕ × CMState :=
  let cutoff := now - maxAgeHours * 3600
  let stale := fun (f : FileEntry) =>
    decide (((s.accessTimes.lookup f.path).getD 0) < cutoff)
  let deleted := s.files.filter stale
  ⟨deleted.length,
   { s with files := s.files.filter (fun f => !stale f),
            accessTimes := s.accessTimes.filter
              (fun kv => !(deleted.map FileEntry.path).contains kv.1) }⟩

/-! ## Metadata store (`src/utils/database.py`)

The single `self.lock` around every method and the one-commit-per-method
connection discipline make each method one atomic transition on the
store state. -/

structure BoardRow where
  board : String
  title : String
  is_worksafe : Int
  last_updated : ℤ
  deriving DecidableEq, Repr

structure ThreadRow where
  data : Json
  last_updated : ℤ
  reply_count : ℕ

structure DBState where
  boards : List BoardRow
  threads : List ((String × Int) × ThreadRow)
  cache_ttl : ℤ

/-- The shape of one element of the remote `boards.json` list, as read
by `cache_boards` (`board['board']`, `board['title']`,
`board.get('ws_board', 0)`). -/
structure BoardJson where
  board : String
  title : String
  ws_board : Int
  deriving DecidableEq, Repr

/-- `DatabaseManager._is_valid`: `(time.time() - timestamp) < ttl`. -/
def dbIsValid (now ts ttl : ℤ) : Bool :=
  decide (now - ts < ttl)

/-- `DatabaseManager.cache_boards`: in one locked transaction,
`DELETE FROM boards` then insert every record with a single shared
timestamp. -/
def cacheBoards (st : DBState) (bs : List BoardJson) (now : ℤ) : DBState :=
  { st with boards :=
      bs.map (fun b => BoardRow.mk b.board b.title b.ws_board now) }

/-- `DatabaseManager.get_cached_boards`: select ordered by board code;
empty table gives `None`; unless `ignore_expiry`, a first-row timestamp
older than the 1-hour TTL gives `None`; otherwise the (board, title)
list. -/
def getCachedBoards (st : DBState) (ignoreExpiry : Bool) (now : ℤ) :
    Option (List (String × String)) :=
  let rows := List.insertionSort
    (fun u v : BoardRow => u.board ≤ v.board) st.boards
  match rows with
  | [] => none
  | r0 :: _ =>
    if !ignoreExpiry && !dbIsValid now r0.last_updated 3600 then none
    else some (rows.map (fun r => (r.board, r.title)))

/-- `DatabaseManager.cache_thread`: `REPLACE INTO threads` keyed on
(board, thread_id), storing the payload, the write time and the derived
reply count (`len(posts) - 1 if posts else 0`). -/
def cacheThread (st : DBState) (board : String) (tid : Int)
    (threadData : Json) (now : ℤ) : DBState :=
  let posts := threadData.posts
  let replyCount := if posts.isEmpty then 0 else posts.length - 1
  { st with threads := ((board, tid), ThreadRow.mk threadData now replyCount)
      :: st.threads.filter (fun kv => !(kv.1 == (board, tid))) }

/-- `DatabaseManager.get_cached_thread`: missing row or a row older
than `cache_ttl` gives `None`, otherwise the stored payload. -/
def getCachedThread (st : DBState) (board : String) (tid : Int)
    (now : ℤ) : Option Json :=
  match st.threads.lookup (board, tid) with
  | none => none
  | some row =>
    if !dbIsValid now row.last_updated st.cache_ttl then none
    else some row.data

/-- The lock-serialized operations that touch the store, for reasoning
about schedules of atomic transitions. -/
inductive DBOp where
  | cacheBoards (bs : List BoardJson) (t : ℤ)
  | cacheThread (board : String) (tid : Int) (payload : Json) (t : ℤ)
  | clearCache
  | cleanupExpired (now : ℤ)

def dbStep (st : DBState) : DBOp → DBState
  | DBOp.cacheBoards bs t => cacheBoards st bs t
  | DBOp.cacheThread b tid p t => cacheThread st b tid p t
  | DBOp.clearCache => { st with boards := [], threads := [] }
  | DBOp.cleanupExpired now =>
    let keep := fun (kv : (String × Int) × ThreadRow) =>
      !decide (kv.2.last_updated < now - st.cache_ttl)
    { st with threads := st.threads.filter keep }

def dbRun (st : DBState) : List DBOp → DBState
  | [] => st
  | op :: ops => dbRun (dbStep st op) ops

/-- The complete board table an operation installs, if it writes the
board table at all. -/
def boardsWriteOf : DBOp → Option (List BoardRow)
  | DBOp.cacheBoards bs t =>
    some (bs.map (fun b => BoardRow.mk b.board b.title b.ws_board t))
  | DBOp.clearCache => some []
  | _ => none

/-- The last complete board table installed by a schedule, if any. -/
def lastBoardsWrite : List DBOp → Option (List BoardRow)
  | [] => none
  | op :: ops =>
    match lastBoardsWrite ops with
    | some rows => some rows
    | none => boardsWriteOf op

/-! ## Request handlers of `src/app.py`

These are the orchestrator drafted with an inline sqlite store: the
state is the boards table, the threads table and the history file.  A
remote fetch outcome is passed in as an `Option` (`fetch_json` returns
`None` on any error, and `if not data` also treats an empty payload as
a failure). -/

structure AppState where
  boards : List (String × String × ℤ)
  threads : List ((String × Int) × (Json × ℤ))
  history : List HEntry

/-- `is_cache_valid` of `src/app.py`: a falsy timestamp is invalid,
otherwise fresh means younger than `cache_minutes` minutes. -/
def appIsCacheValid (now ts cacheMinutes : ℤ) : Bool :=
  if ts = 0 then false else decide (now - ts < cacheMinutes * 60)

inductive BoardsResult where
  | fromCache (boards : List (String × String))
  | fetched (boards : List BoardJson)
  | failure
  deriving DecidableEq, Repr

/-- The fetch branch of `get_boards`: failure gives
`jsonify([]), 500` with the table untouched; success replaces the whole
table and returns the remote list. -/
def appGetBoardsFetch (st : AppState) (fetch : Option (List BoardJson))
    (now : ℤ) : BoardsResult × AppState × Bool :=
  match fetch with
  | none => (BoardsResult.failure, st, true)
  | some bs =>
    (BoardsResult.fetched bs,
     { st with boards := bs.map (fun b => (b.board, b.title, now)) }, true)

/-- `get_boards` of `src/app.py`: if the cached table is nonempty and
its first row is fresh, answer from cache with no fetch; otherwise
fetch.  The third component records whether a remote fetch was
attempted. -/
def appGetBoards (st : AppState) (fetch : Option (List BoardJson))
    (now cacheTime : ℤ) : BoardsResult × AppState × Bool :=
  match st.boards with
  | [] => appGetBoardsFetch st fetch now
  | r0 :: rest =>
    if appIsCacheValid now r0.2.2 cacheTime then
      (BoardsResult.fromCache ((r0 :: rest).map (fun r => (r.1, r.2.1))),
       st, false)
    else appGetBoardsFetch st fetch now

/-- `posts[0].get('sub', '') if posts else 'No Subject'` in
`get_thread`. -/
def threadTitle (data : Json) : String :=
  match data.posts with
  | [] => "No Subject"
  | p0 :: _ =>
    match p0.objGet "sub" with
    | some (Json.str s) => s
    | _ => ""

inductive ThreadResult where
  | payload (data : Json)
  | notFound

/-- The fetch branch of `get_thread`: a failed fetch yields the 404
error with the state untouched; a successful fetch records a history
visit and replaces the cached row. -/
def appGetThreadFetch (st : AppState) (board : String) (tid : Int)
    (fetch : Option Json) (now : ℤ) : ThreadResult × AppState :=
  match fetch with
  | none => (ThreadResult.notFound, st)
  | some data =>
    let history' := appAddToHistory st.history board tid (threadTitle data) now
    let threads' := ((board, tid), (data, now)) ::
      st.threads.filter (fun kv => !(kv.1 == (board, tid)))
    (ThreadResult.payload data, { st with history := history', threads := threads' })

/-- `get_thread` of `src/app.py`: a fresh cached row (5-minute TTL) is
returned as-is — note no history call on this path — otherwise the
fetch branch runs. -/
def appGetThread (st : AppState) (board : String) (tid : Int)
    (fetch : Option Json) (now : ℤ) : ThreadResult × AppState :=
  match st.threads.lookup (board, tid) with
  | some cached =>
    if appIsCacheValid now cached.2 5 then (ThreadResult.payload cached.1, st)
    else appGetThreadFetch st board tid fetch now
  | none => appGetThreadFetch st board tid fetch now

end Scraper

open Scraper

/-- C10: for every thread list and every filter list, both
`apply_filters` variants return a subsequence of the input (surviving
threads unmodified, order preserved, no duplication), and an empty
filter list returns the input list unchanged. -/
theorem c10_apply_filters_sublist
    (reSearch : String → String → Bool → Option Bool)
    (threads : List CatalogThread) (filters : List Filt) :
    (applyFiltersFM reSearch threads filters).Sublist threads ∧
    (applyFiltersFile threads filters).Sublist threads ∧
    (filters = [] → applyFiltersFM reSearch threads filters = threads) ∧
    (filters = [] → applyFiltersFile threads filters = threads) := by
  refine ⟨?_, ?_, ?_, ?_⟩
  · unfold applyFiltersFM
    by_cases h : filters = [] <;> simp [h, List.filter_sublist]
  · unfold applyFiltersFile
    by_cases h : filters = [] <;> simp [h, List.filter_sublist]
  · intro h; simp [applyFiltersFM, h]
  · intro h; simp [applyFiltersFile, h]

/-- Filtering with the dedup key removes every match. -/
theorem countP_dedup_zero (b : String) (tid : Int) (hist : List HEntry) :
    (hist.filter (fun h => !keyTest b tid h)).countP (keyTest b tid) = 0 := by
  rw [List.countP_eq_zero]
  intro a ha
  have := (List.mem_filter.mp ha).2
  simp only [Bool.not_eq_true'] at this
  simp [this]

/-- C6 counterexample: the claim asserts the new visit is inserted at
position 0, but `add_to_history` in `src/app.py` appends at the end:
adding a visit for (g, 123) to a one-entry history leaves the old entry
at position 0 and puts the new entry at position 1. -/
theorem c6_history_position_counterexample :
    (appAddToHistory [HEntry.mk "g" 999 "Old" 1] "g" 123 "B" 5).head? =
      some (HEntry.mk "g" 999 "Old" 1) ∧
    (appAddToHistory [HEntry.mk "g" 999 "Old" 1] "g" 123 "B" 5)[1]? =
      some (HEntry.mk "g" 123 "B" 5) := by
  constructor <;> rfl

/-- C6 (amended): `HistoryManager.add_entry` removes any entry with the
same (board, threadId) key, inserts the new entry at position 0,
truncates to the maximum length keeping the newest entries, and visiting
the same thread twice from an empty history leaves exactly one entry
with the second title at position 0; the `src/app.py` variant
`add_to_history` also deduplicates but appends the new entry at the END
(most-recent-last) and keeps only the last 100 entries. -/
theorem c6_history_dedup_amended (maxEntries : ℕ) (hist : List HEntry)
    (b : String) (tid : Int) (title : String) (now t1 t2 : ℤ)
    (hmax : 0 < maxEntries) :
    (hmAddEntry maxEntries hist b tid title now).head? =
      some (HEntry.mk b tid title now) ∧
    (hmAddEntry maxEntries hist b tid title now).countP (keyTest b tid) = 1 ∧
    (hmAddEntry maxEntries hist b tid title now).length ≤ maxEntries ∧
    ((hmAddEntry maxEntries hist b tid title now).filter
      (fun h => !keyTest b tid h)).Sublist hist ∧
    hmAddEntry maxEntries (hmAddEntry maxEntries [] b tid "A" t1)
      b tid "B" t2 = [HEntry.mk b tid "B" t2] ∧
    (appAddToHistory hist b tid title now).getLast? =
      some (HEntry.mk b tid (if title = "" then "No Subject" else title) now) ∧
    (appAddToHistory hist b tid title now).countP (keyTest b tid) = 1 := by
  obtain ⟨m, rfl⟩ : ∃ m, maxEntries = m + 1 := ⟨maxEntries - 1, by omega⟩
  have hkey : keyTest b tid (HEntry.mk b tid title now) = true := by
    simp [keyTest]
  refine ⟨?_, ?_, ?_, ?_, ?_, ?_, ?_⟩
  · simp [hmAddEntry]
  · unfold hmAddEntry
    rw [List.take_succ_cons, List.countP_cons_of_pos _ _ hkey]
    have h0 := countP_dedup_zero b tid hist
    have hle := (List.take_sublist m
      (hist.filter (fun h => !keyTest b tid h))).countP_le (keyTest b tid)
    omega
  · exact List.length_take_le _ _
  · unfold hmAddEntry
    rw [List.take_succ_cons]
    have hstep : (HEntry.mk b tid title now ::
        List.take m (hist.filter (fun h => !keyTest b tid h))).filter
        (fun h => !keyTest b tid h) =
        (List.take m (hist.filter (fun h => !keyTest b tid h))).filter
        (fun h => !keyTest b tid h) := by
      simp [keyTest]
    rw [hstep]
    exact ((List.filter_sublist _).trans
      (List.take_sublist _ _)).trans (List.filter_sublist _)
  · simp [hmAddEntry, keyTest]
  · unfold appAddToHistory appSaveHistory
    set deduped := hist.filter (fun h => !keyTest b tid h) with hd
    set e2 := HEntry.mk b tid (if title = "" then "No Subject" else title) now
      with he2
    have hk : (deduped ++ [e2]).length - 100 ≤ deduped.length := by
      simp only [List.length_append, List.length_cons, List.length_nil]
      omega
    rw [List.drop_append_of_le_length hk, List.getLast?_concat]
  · unfold appAddToHistory appSaveHistory
    set deduped := hist.filter (fun h => !keyTest b tid h) with hd
    set e2 := HEntry.mk b tid (if title = "" then "No Subject" else title) now
      with he2
    have hk : (deduped ++ [e2]).length - 100 ≤ deduped.length := by
      simp only [List.length_append, List.length_cons, List.length_nil]
      omega
    rw [List.drop_append_of_le_length hk]
    have hkey2 : keyTest b tid e2 = true := by simp [he2, keyTest]
    rw [List.countP_append, List.countP_cons_of_pos _ _ hkey2]
    have h0 : deduped.countP (keyTest b tid) = 0 := countP_dedup_zero b tid hist
    have hle := (List.drop_sublist ((deduped ++ [e2]).length - 100)
      deduped).countP_le (keyTest b tid)
    simp only [List.countP_nil]
    omega

/-- C6 witness: the amended theorem applied at a concrete history. -/
theorem c6_history_dedup_amended_witness :
    (hmAddEntry 2 [HEntry.mk "g" 999 "Old" 1] "g" 123 "T" 7).head? =
      some (HEntry.mk "g" 123 "T" 7) :=
  (c6_history_dedup_amended 2 [HEntry.mk "g" 999 "Old" 1] "g" 123 "T" 7 1 2
    (by decide)).1

/-- C10 witness: the theorem evaluated at one concrete thread list and
the empty filter list. -/
theorem c10_apply_filters_sublist_witness :
    applyFiltersFM (fun _ _ _ => none)
      [⟨"Test thread", "body", 1⟩] [] = [⟨"Test thread", "body", 1⟩] ∧
    applyFiltersFile [⟨"Test thread", "body", 1⟩] [] =
      [⟨"Test thread", "body", 1⟩] :=
  ⟨(c10_apply_filters_sublist (fun _ _ _ => none)
      [⟨"Test thread", "body", 1⟩] []).2.2.1 rfl,
   (c10_apply_filters_sublist (fun _ _ _ => none)
      [⟨"Test thread", "body", 1⟩] []).2.2.2 rfl⟩

/-- C3: an HTTP 404 on the first attempt makes `_make_request` return
NotFound (`None`) at once: exactly one HTTP GET, no retry and no
backoff sleep, whatever the configured retry limit. -/
theorem c3_404_no_retry (url : String) (w : ℕ → Resp) (n : ℕ)
    (hn : 0 < n) (h404 : w 0 = Resp.httpErr 404) :
    makeRequest url w n = (none, [Action.rateWait, Action.httpGet url]) := by
  obtain ⟨m, rfl⟩ : ∃ m, n = m + 1 := ⟨n - 1, by omega⟩
  unfold makeRequest
  rw [List.range_succ_eq_map]
  simp [makeRequestLoop, h404]

/-- C3 witness: a network that always answers 404, three allowed
attempts. -/
theorem c3_404_no_retry_witness :
    makeRequest "u" (fun _ => Resp.httpErr 404) 3 =
      (none, [Action.rateWait, Action.httpGet "u"]) :=
  c3_404_no_retry "u" (fun _ => Resp.httpErr 404) 3 (by decide) rfl

/-- C8 counterexample: the claim says every outbound request passes
through the shared rate-limit gate, but `CacheManager._download_file`
issues its GET directly: its action trace contains an HTTP GET and no
gate wait. -/
theorem c8_ungated_download_counterexample :
    Action.httpGet "u" ∈
      (cacheDownloadFile (CMState.mk [] [] 500) "u" "p" 10 1 true).2.2 ∧
    Action.rateWait ∉
      (cacheDownloadFile (CMState.mk [] [] 500) "u" "p" 10 1 true).2.2 := by
  decide

/-- C8 (amended): requests issued through `FourChanAPI`
(`_make_request` and `download_file`) take the shared gate before their
GET, and the gate guarantees consecutive gated requests are at least
`rate_limit` seconds apart; but `CacheManager._download_file` issues
its GET with no gate at all, so not every outbound request is rate
limited. -/
theorem c8_rate_limit_amended :
    (∀ url w n, (makeRequest url w n).2.head? = some Action.rateWait) ∧
    (∀ url ok, (apiDownloadFile url ok).2.head? = some Action.rateWait) ∧
    (∀ s url path sz now ok,
      Action.rateWait ∉ (cacheDownloadFile s url path sz now ok).2.2 ∧
      Action.httpGet url ∈ (cacheDownloadFile s url path sz now ok).2.2) ∧
    (∀ rl last now, rl ≤ (waitRateLimit rl last now).1 - last ∧
      (waitRateLimit rl last now).2 = (waitRateLimit rl last now).1) := by
  refine ⟨fun url w n => rfl, fun url ok => rfl, ?_, ?_⟩
  · intro s url path sz now ok
    unfold cacheDownloadFile
    by_cases h : ok <;> simp [h]
  · intro rl last now
    constructor
    · unfold waitRateLimit
      by_cases h : now - last < rl
      · simp only [if_pos h]
        linarith
      · simp only [if_neg h]
        linarith [not_lt.mp h]
    · unfold waitRateLimit
      by_cases h : now - last < rl
      · simp only [if_pos h]
      · simp only [if_neg h]

/-- C9: the age-based sweep `cleanup_expired` keys on the in-memory
access-time map with default 0, so (for any realistic clock, i.e.
positive cutoff) every file with no recorded access survives only if it
has a record; in a freshly started process (empty map) the whole blob
cache is deleted and the count equals the number of files. -/
theorem c9_expiry_sweep_deletes_unaccessed (s : CMState)
    (maxAgeHours now : ℤ) (hcut : 0 < now - maxAgeHours * 3600) :
    (∀ f ∈ (cleanupExpired s maxAgeHours now).2.files,
      s.accessTimes.lookup f.path ≠ none) ∧
    (s.accessTimes = [] →
      (cleanupExpired s maxAgeHours now).2.files = [] ∧
      (cleanupExpired s maxAgeHours now).1 = s.files.length) := by
  constructor
  · intro f hf
    unfold cleanupExpired at hf
    simp only [List.mem_filter, Bool.not_eq_true', decide_eq_false_iff_not,
      not_lt] at hf
    intro hnone
    rw [hnone] at hf
    simp only [Option.getD_none] at hf
    linarith [hf.2]
  · intro hempty
    unfold cleanupExpired
    have hstale : ∀ f : FileEntry,
        decide (((s.accessTimes.lookup f.path).getD 0) <
          now - maxAgeHours * 3600) = true := by
      intro f
      rw [hempty]
      simp only [List.lookup_nil, Option.getD_none, decide_eq_true_eq]
      linarith
    constructor
    · simp only [List.filter_eq_nil_iff]
      intro f _
      simp [hstale f]
    · simp only
      rw [List.filter_eq_self.mpr (fun f _ => hstale f)]

/-- C9 witness: a fresh process (empty access map) with two cached
files, a 24-hour threshold and a realistic clock: both files are
deleted. -/
theorem c9_expiry_sweep_deletes_unaccessed_witness :
    (cleanupExpired
      (CMState.mk [FileEntry.mk "a" 10, FileEntry.mk "b" 20] [] 500)
      24 100000).2.files = [] ∧
    (cleanupExpired
      (CMState.mk [FileEntry.mk "a" 10, FileEntry.mk "b" 20] [] 500)
      24 100000).1 = 2 :=
  (c9_expiry_sweep_deletes_unaccessed
    (CMState.mk [FileEntry.mk "a" 10, FileEntry.mk "b" 20] [] 500)
    24 100000 (by norm_num)).2 rfl

/-- The eviction loop only splits the sorted list: deleted ++ remaining
is the input. -/
theorem evict_append (limitMB : ℕ) (l : List FileEntry) : ∀ (cur : ℕ),
    (evict limitMB l cur).1 ++ (evict limitMB l cur).2 = l := by
  induction l with
  | nil => intro cur; rfl
  | cons f fs ih =>
    intro cur
    simp only [evict]
    by_cases h : 5 * cur ≤ 4 * (limitMB * 1048576)
    · rw [if_pos h]
      rfl
    · rw [if_neg h]
      simp only [List.cons_append, List.cons.injEq, true_and]
      exact ih (cur - f.size)

/-- When the running total starts as the true total, the remaining
files after eviction weigh at most 80% of the limit. -/
theorem evict_remaining_le (limitMB : ℕ)
    (l : List FileEntry) : ∀ cur, cur = totalBytes l →
    5 * totalBytes (evict limitMB l cur).2 ≤ 4 * (limitMB * 1048576) := by
  induction l with
  | nil =>
    intro cur hcur
    simp [evict, totalBytes]
  | cons f fs ih =>
    intro cur hcur
    simp only [evict]
    by_cases h : 5 * cur ≤ 4 * (limitMB * 1048576)
    · rw [if_pos h]
      rw [hcur] at h
      exact h
    · rw [if_neg h]
      have hfs : cur - f.size = totalBytes fs := by
        have : cur = f.size + totalBytes fs := by
          simpa [totalBytes] using hcur
        omega
      exact ih (cur - f.size) hfs

/-- Minimality of the eviction loop: before each deletion the running
total (equal to the total of the files not yet deleted) still exceeded
80% of the limit. -/
theorem evict_min (limitMB : ℕ) (l : List FileEntry) : ∀ cur,
    cur = totalBytes l → ∀ j, j < (evict limitMB l cur).1.length →
    4 * (limitMB * 1048576) < 5 * totalBytes (l.drop j) := by
  induction l with
  | nil =>
    intro cur hcur j hj
    simp [evict] at hj
  | cons f fs ih =>
    intro cur hcur j hj
    simp only [evict] at hj
    by_cases h : 5 * cur ≤ 4 * (limitMB * 1048576)
    · rw [if_pos h] at hj
      simp at hj
    · rw [if_neg h] at hj
      cases j with
      | zero =>
        have h' := not_le.mp h
        rw [hcur] at h'
        simpa using h'
      | succ j' =>
        simp only [List.length_cons, Nat.succ_lt_succ_iff] at hj
        have hfs : cur - f.size = totalBytes fs := by
          have : cur = f.size + totalBytes fs := by
            simpa [totalBytes] using hcur
          omega
        simpa [List.drop_succ_cons] using ih (cur - f.size) hfs j' hj

/-- The integer test used by the eviction loop is exactly the rational
statement "at most 80% of the limit in MB". -/
theorem target_le_iff (n L : ℕ) :
    5 * n ≤ 4 * (L * 1048576) ↔ (n : ℚ) / (1024 * 1024) ≤ (L : ℚ) * (4 / 5) := by
  rw [div_le_iff₀ (by norm_num : (0 : ℚ) < 1024 * 1024)]
  rw [show (L : ℚ) * (4 / 5) * (1024 * 1024) =
    ((4 * (L * 1048576) : ℕ) : ℚ) / 5 by push_cast; ring]
  rw [le_div_iff₀ (by norm_num : (0 : ℚ) < 5)]
  rw [show (n : ℚ) * 5 = ((5 * n : ℕ) : ℚ) by push_cast; ring]
  exact_mod_cast Iff.rfl

/-- Strict version of `target_le_iff`. -/
theorem target_lt_iff (n L : ℕ) :
    4 * (L * 1048576) < 5 * n ↔ (L : ℚ) * (4 / 5) < (n : ℚ) / (1024 * 1024) := by
  rw [lt_div_iff₀ (by norm_num : (0 : ℚ) < 1024 * 1024)]
  rw [show (L : ℚ) * (4 / 5) * (1024 * 1024) =
    ((4 * (L * 1048576) : ℕ) : ℚ) / 5 by push_cast; ring]
  rw [div_lt_iff₀ (by norm_num : (0 : ℚ) < 5)]
  rw [show (n : ℚ) * 5 = ((5 * n : ℕ) : ℚ) by push_cast; ring]
  exact_mod_cast Iff.rfl

/-- C1: after a successful blob download whose resulting total size
exceeds the limit, `_check_cache_size` runs `_cleanup_lru`, which
enumerates all files, sorts them ascending by recorded access time
(no record defaulting to 0 via `lruKey`), and deletes exactly the
shortest oldest-first prefix needed to bring the remaining total to at
most 80% of the limit; deleted files are never more recently accessed
than surviving ones. -/
theorem c1_lru_eviction_correct
    (s s1 : CMState) (url path : String) (sz : ℕ) (now : ℤ)
    (d r : List FileEntry)
    (hs1 : s1 = downloadedState s path sz now)
    (hex : s1.maxSizeMB * 1048576 < totalBytes s1.files)
    (hd : d = (evict s1.maxSizeMB (sortLru s1) (totalBytes s1.files)).1)
    (hr : r = (evict s1.maxSizeMB (sortLru s1) (totalBytes s1.files)).2) :
    (cacheDownloadFile s url path sz now true).2.1.files = r ∧
    (sortLru s1).Perm s1.files ∧
    List.Sorted (fun u v => lruKey s1 u ≤ lruKey s1 v) (sortLru s1) ∧
    d = (sortLru s1).take d.length ∧
    r = (sortLru s1).drop d.length ∧
    sizeMB r ≤ (s1.maxSizeMB : ℚ) * (4 / 5) ∧
    (∀ j, j < d.length →
      (s1.maxSizeMB : ℚ) * (4 / 5) < sizeMB ((sortLru s1).drop j)) ∧
    (∀ f ∈ d, ∀ g ∈ r, lruKey s1 f ≤ lruKey s1 g) := by
  have hperm : (sortLru s1).Perm s1.files := List.perm_insertionSort _ _
  have htot : totalBytes (sortLru s1) = totalBytes s1.files := by
    unfold totalBytes
    exact (hperm.map FileEntry.size).sum_eq
  have happ : d ++ r = sortLru s1 := by
    rw [hd, hr]; exact evict_append _ _ _
  have hsorted : List.Sorted (fun u v => lruKey s1 u ≤ lruKey s1 v)
      (sortLru s1) := by
    haveI h1 : IsTotal FileEntry (fun u v => lruKey s1 u ≤ lruKey s1 v) :=
      ⟨fun a b => le_total _ _⟩
    haveI h2 : IsTrans FileEntry (fun u v => lruKey s1 u ≤ lruKey s1 v) :=
      ⟨fun a b c hab hbc => le_trans hab hbc⟩
    exact List.sorted_insertionSort _ _
  have htake : d = (sortLru s1).take d.length := by
    rw [← happ, List.take_left]
  have hdrop : r = (sortLru s1).drop d.length := by
    rw [← happ, List.drop_left]
  have hle : sizeMB r ≤ (s1.maxSizeMB : ℚ) * (4 / 5) := by
    rw [hr]
    exact (target_le_iff _ _).mp (evict_remaining_le _ _ _ htot.symm)
  have hmin : ∀ j, j < d.length →
      (s1.maxSizeMB : ℚ) * (4 / 5) < sizeMB ((sortLru s1).drop j) := by
    intro j hj
    rw [hd] at hj
    exact (target_lt_iff _ _).mp (evict_min _ _ _ htot.symm j hj)
  have hlru : ∀ f ∈ d, ∀ g ∈ r, lruKey s1 f ≤ lruKey s1 g := by
    have hp : List.Pairwise (fun u v => lruKey s1 u ≤ lruKey s1 v)
        (d ++ r) := by rw [happ]; exact hsorted
    exact (List.pairwise_append.mp hp).2.2
  refine ⟨?_, hperm, hsorted, htake, hdrop, hle, hmin, hlru⟩
  have hstep : (cacheDownloadFile s url path sz now true).2.1 =
      checkCacheSize s1 := by rw [hs1]; rfl
  rw [hstep]
  unfold checkCacheSize
  rw [if_pos hex]
  simp only [cleanupLru]
  exact hr.symm

/-- C1 witness: a 1 MB limit, one old 1 MB file, then a successful
download of a second 1 MB file: the total (2 MB) exceeds the limit and
eviction (target 0.8 MB) must delete both files. -/
theorem c1_lru_eviction_correct_witness :
    (cacheDownloadFile
      (CMState.mk [FileEntry.mk "a" 1048576] [("a", 1)] 1)
      "u" "b" 1048576 2 true).2.1.files = [] :=
  ((c1_lru_eviction_correct
      (CMState.mk [FileEntry.mk "a" 1048576] [("a", 1)] 1)
      (downloadedState
        (CMState.mk [FileEntry.mk "a" 1048576] [("a", 1)] 1) "b" 1048576 2)
      "u" "b" 1048576 2 _ _ rfl (by decide) rfl rfl).1).trans (by decide)

/-- C2 counterexample: the claim says a failed fetch falls back to the
stale cached board list when one exists, but `get_boards` of
`src/app.py` reports failure (`[], 500`) on a failed fetch even though
a (stale) cached row is present. -/
theorem c2_stale_fallback_counterexample :
    (appGetBoards (AppState.mk [("g", "Technology", 1)] [] [])
      none 100000 10).1 = BoardsResult.failure ∧
    (AppState.mk [("g", "Technology", 1)] [] []).boards ≠ [] := by
  constructor
  · decide
  · decide

/-- C2 (amended): a fresh cache answers without any fetch; a stale or
empty cache triggers a fetch whose failure is reported as failure even
when stale rows exist (no stale fallback in `get_boards`); on success
the table is replaced and the remote list returned.
`DatabaseManager.get_cached_boards(ignore_expiry=True)` would serve a
stale nonempty table, but nothing in the repository calls it that
way. -/
theorem c2_boards_no_stale_fallback_amended
    (st : AppState) (fetch : Option (List BoardJson)) (now cacheTime : ℤ)
    (r0 : String × String × ℤ) (rest : List (String × String × ℤ)) :
    (st.boards = r0 :: rest → appIsCacheValid now r0.2.2 cacheTime = true →
      appGetBoards st fetch now cacheTime =
        (BoardsResult.fromCache (st.boards.map (fun r => (r.1, r.2.1))),
         st, false)) ∧
    (st.boards = r0 :: rest → appIsCacheValid now r0.2.2 cacheTime = false →
      fetch = none →
      appGetBoards st fetch now cacheTime =
        (BoardsResult.failure, st, true)) ∧
    (st.boards = r0 :: rest → appIsCacheValid now r0.2.2 cacheTime = false →
      ∀ bs, fetch = some bs →
      appGetBoards st fetch now cacheTime =
        (BoardsResult.fetched bs,
         { st with boards := bs.map (fun b => (b.board, b.title, now)) },
         true)) ∧
    (st.boards = [] → fetch = none →
      appGetBoards st fetch now cacheTime =
        (BoardsResult.failure, st, true)) ∧
    (∀ dbst : DBState, dbst.boards ≠ [] →
      getCachedBoards dbst true now ≠ none) := by
  refine ⟨?_, ?_, ?_, ?_, ?_⟩
  · intro hb hv
    unfold appGetBoards
    rw [hb]
    simp [hv, hb]
  · intro hb hv hf
    unfold appGetBoards
    rw [hb]
    simp [hv, hf, appGetBoardsFetch]
  · intro hb hv bs hf
    unfold appGetBoards
    rw [hb]
    simp [hv, hf, appGetBoardsFetch]
  · intro hb hf
    unfold appGetBoards
    rw [hb, hf]
    rfl
  · intro dbst hne
    unfold getCachedBoards
    have hperm := List.perm_insertionSort
      (fun u v : BoardRow => u.board ≤ v.board) dbst.boards
    cases hrows : List.insertionSort
        (fun u v : BoardRow => u.board ≤ v.board) dbst.boards with
    | nil =>
      rw [hrows] at hperm
      exact absurd (hperm.symm.eq_nil) hne
    | cons r0 rest2 => simp

/-- C2 witness: a fresh one-row cache answers from cache with no
fetch attempted. -/
theorem c2_boards_no_stale_fallback_amended_witness :
    appGetBoards (AppState.mk [("g", "Technology", 50)] [] [])
      none 100 10 =
      (BoardsResult.fromCache [("g", "Technology")],
       AppState.mk [("g", "Technology", 50)] [] [], false) :=
  (c2_boards_no_stale_fallback_amended
    (AppState.mk [("g", "Technology", 50)] [] []) none 100 10
    ("g", "Technology", 50) []).1 rfl (by decide)

/-- C4: `cache_boards` installs the complete new record set regardless
of the previous table contents, and over any schedule of the
lock-serialized store operations the observable board table is always
the complete table installed by the latest board-table write (or the
initial table): a reader never sees a mixture of old and new sets. -/
theorem c4_cache_boards_atomic (st : DBState) (ops : List DBOp)
    (bs : List BoardJson) (t : ℤ) :
    (cacheBoards st bs t).boards =
      bs.map (fun b => BoardRow.mk b.board b.title b.ws_board t) ∧
    (dbRun st ops).boards = (lastBoardsWrite ops).getD st.boards := by
  refine ⟨rfl, ?_⟩
  induction ops generalizing st with
  | nil => rfl
  | cons op ops ih =>
    show (dbRun (dbStep st op) ops).boards = _
    rw [ih]
    have hcons : lastBoardsWrite (op :: ops) =
        match lastBoardsWrite ops with
        | some rows => some rows
        | none => boardsWriteOf op := rfl
    rw [hcons]
    cases hl : lastBoardsWrite ops with
    | some rows => rfl
    | none => cases op <;> rfl

/-- C5: writing a thread payload with `cache_thread` and reading it
back with `get_cached_thread` before the thread TTL has elapsed
returns exactly the stored payload. -/
theorem c5_thread_round_trip (st : DBState) (board : String) (tid : Int)
    (payload : Json) (t now : ℤ) (hfresh : now - t < st.cache_ttl) :
    getCachedThread (cacheThread st board tid payload t) board tid now =
      some payload := by
  unfold cacheThread getCachedThread
  simp [List.lookup, dbIsValid, hfresh]

/-- C5 witness: a concrete one-post payload cached at time 0 and read
at time 10 with the default 600-second TTL. -/
theorem c5_thread_round_trip_witness :
    getCachedThread (cacheThread (DBState.mk [] [] 600) "g" 123
      (Json.obj [("posts", Json.arr [Json.null])]) 0) "g" 123 10 =
      some (Json.obj [("posts", Json.arr [Json.null])]) :=
  c5_thread_round_trip (DBState.mk [] [] 600) "g" 123
    (Json.obj [("posts", Json.arr [Json.null])]) 0 10 (by norm_num)

/-- C7 counterexample: the claim says a fresh-cache thread request
still records a history visit, but the fresh-cache path of
`get_thread` in `src/app.py` returns the cached payload with the state
(history included) untouched and empty. -/
theorem c7_cache_hit_no_history_counterexample :
    (appGetThread (AppState.mk [] [(("g", 123), (Json.null, 100))] [])
      "g" 123 none 101).1 = ThreadResult.payload Json.null ∧
    (appGetThread (AppState.mk [] [(("g", 123), (Json.null, 100))] [])
      "g" 123 none 101).2.history = [] := by
  constructor
  · rfl
  · rfl

/-- C7 (amended): a fresh cached row is returned with the whole state
(history included) unchanged — no history visit is recorded on the
cache-hit path; a history visit is recorded only on the successful
remote-fetch path (cache miss or stale row). -/
theorem c7_thread_cache_hit_amended (st : AppState) (board : String)
    (tid : Int) (fetch : Option Json) (now : ℤ) (cached : Json × ℤ) :
    (st.threads.lookup (board, tid) = some cached →
      appIsCacheValid now cached.2 5 = true →
      appGetThread st board tid fetch now =
        (ThreadResult.payload cached.1, st)) ∧
    (st.threads.lookup (board, tid) = none →
      ∀ data, fetch = some data →
      (appGetThread st board tid fetch now).2.history =
        appAddToHistory st.history board tid (threadTitle data) now) ∧
    (st.threads.lookup (board, tid) = some cached →
      appIsCacheValid now cached.2 5 = false →
      ∀ data, fetch = some data →
      (appGetThread st board tid fetch now).2.history =
        appAddToHistory st.history board tid (threadTitle data) now) := by
  refine ⟨?_, ?_, ?_⟩
  · intro hl hv
    unfold appGetThread
    rw [hl]
    simp [hv]
  · intro hl data hf
    unfold appGetThread
    rw [hl, hf]
    rfl
  · intro hl hv data hf
    unfold appGetThread
    rw [hl, hf]
    simp [hv, appGetThreadFetch]

/-- C7 witness: the fresh-cache path at a concrete state, leaving the
state unchanged. -/
theorem c7_thread_cache_hit_amended_witness :
    appGetThread (AppState.mk [] [(("g", 123), (Json.null, 100))] [])
      "g" 123 none 101 =
      (ThreadResult.payload Json.null,
       AppState.mk [] [(("g", 123), (Json.null, 100))] []) :=
  (c7_thread_cache_hit_amended
    (AppState.mk [] [(("g", 123), (Json.null, 100))] [])
    "g" 123 none 101 ((Json.null, 100) : Json × ℤ)).1 rfl (by decide)
